import Mathlib

/-!
Shallow embedding of `toml2lua` (src/lib.rs): a converter from a parsed
TOML value tree to the source text of a Lua table literal.

The TOML parsing itself is performed by the external `toml` crate
(`from_str`); it is modelled as a parameter producing either a parse
error or a root table.  Everything downstream of parsing — the recursive
tree walk `walk`, the indentation helper `get_indent`, and the escaping
function `validate_string` — is translated directly from the source.
-/

/-- The TOML value tree consumed by the renderer, mirroring `toml::Value`.
`float` and `datetime` carry the textual form produced by the upstream
crate's formatter (`f64` formatting and `Datetime`'s display are external
to this repository and opaque to the renderer, which only ever
concatenates their text). `table` is an insertion-ordered association
list, per the documented contract of the parser collaborator. -/
inductive Value where
  | str : String → Value
  | integer : Int → Value
  | float : String → Value
  | boolean : Bool → Value
  | datetime : String → Value
  | array : List Value → Value
  | table : List (String × Value) → Value

/-- One step of `validate_string`'s scan: the substitution the source
applies to a single character (src/lib.rs lines 136-145). -/
def escapeChar (c : Char) : List Char :=
  match c with
  | '\n' => ['\\', 'n']
  | '\t' => ['\\', 't']
  | '\r' => ['\\', 'r']
  | '\\' => ['\\', '\\']
  | '"' => ['\\', '"']
  | c => [c]

/-- The character-by-character loop of `validate_string` over the
input's characters. -/
def escapeChars : List Char → List Char
  | [] => []
  | c :: rest => escapeChar c ++ escapeChars rest

/-- `validate_string` (src/lib.rs lines 133-148): escape the five special
characters, pass every other character through unchanged. -/
def validate_string (s : String) : String :=
  String.mk (escapeChars s.data)

/-- `get_indent` (src/lib.rs lines 123-131): a string of `depth` tab
characters, built by pushing one tab per loop iteration. -/
def get_indent : Nat → String
  | 0 => ""
  | d + 1 => get_indent d ++ "\t"

/-- Decimal digits of a natural number, most significant first; the
digit-generation semantics of Rust's `u64`/`i64` `Display`. -/
def natDigits (n : Nat) : List Char :=
  if n < 10 then [Nat.digitChar n]
  else natDigits (n / 10) ++ [Nat.digitChar (n % 10)]
decreasing_by exact Nat.div_lt_self (by omega) (by omega)

/-- Rust's `i64::to_string` as used by `walk`'s integer arm
(src/lib.rs line 92): a minus sign for negative values followed by the
decimal digits of the magnitude. -/
def int_to_string (i : Int) : String :=
  if i < 0 then String.mk ('-' :: natDigits i.natAbs)
  else String.mk (natDigits i.natAbs)

/-- The optional key segment of an entry (src/lib.rs lines 86-88):
a bracket-quoted, escaped key followed by an equals sign, or nothing. -/
def key_part : Option String → String
  | some k => "[\"" ++ validate_string k ++ "\"] = "
  | none => ""

mutual

/-- `walk` (src/lib.rs lines 81-121): render one entry — indentation,
optional key part, the value's literal, and the unconditional
comma-newline terminator. -/
def walk (key : Option String) (value : Value) (depth : Nat) : String :=
  get_indent depth ++ key_part key ++
    (match value with
     | .str s => "\"" ++ validate_string s ++ "\""
     | .integer i => int_to_string i
     | .float f => f
     | .boolean b => if b then "true" else "false"
     | .datetime d => "\"" ++ d ++ "\""
     | .array a => "\x7b\n" ++ walkList a (depth + 1) ++ get_indent depth ++ "\x7d"
     | .table t => "\x7b\n" ++ walkTable t (depth + 1) ++ get_indent depth ++ "\x7d") ++
    ",\n"

/-- The `for v in a` loop of `walk`'s array arm (src/lib.rs lines 99-101):
each element is rendered with no key. -/
def walkList (l : List Value) (depth : Nat) : String :=
  match l with
  | [] => ""
  | v :: rest => walk none v depth ++ walkList rest depth

/-- The `for (k, v) in t` loop of `walk`'s table arm
(src/lib.rs lines 109-111): each pair is rendered with its own key. -/
def walkTable (t : List (String × Value)) (depth : Nat) : String :=
  match t with
  | [] => ""
  | (k, v) :: rest => walk (some k) v depth ++ walkTable rest depth

end

/-- The `for (key, value) in toml` loop of `parse`
(src/lib.rs lines 71-73): note the key is escaped here and then again
inside `walk` via `key_part`. -/
def renderEntries : List (String × Value) → String
  | [] => ""
  | (k, v) :: rest => walk (some (validate_string k)) v 1 ++ renderEntries rest

/-- The rendering phase of `parse` (src/lib.rs lines 69-78): opening
brace and newline, the root entries at depth 1, closing brace. -/
def render (root : List (String × Value)) : String :=
  "\x7b\n" ++ renderEntries root ++ "\x7d"

/-- `parse` (src/lib.rs lines 68-79), with the external `from_str` of the
`toml` crate abstracted as a parameter: a parser failure is returned
unchanged via `?`, a parsed root table is rendered. -/
def parse {E : Type} (from_str : String → Except E (List (String × Value)))
    (s : String) : Except E String :=
  match from_str s with
  | .error e => .error e
  | .ok t => .ok (render t)

/-- Read a rendered decimal string back into an integer: used to state
that integer rendering loses no precision. -/
def digitsVal (l : List Char) : Nat :=
  l.foldl (fun a c => 10 * a + (c.toNat - '0'.toNat)) 0

/-- Inverse of `int_to_string` on well-formed decimal strings. -/
def decode_int (s : String) : Int :=
  if s.data.head? = some '-' then -(digitsVal s.data.tail : Int)
  else (digitsVal s.data : Int)

theorem strMk_append (a b : List Char) :
    String.mk a ++ String.mk b = String.mk (a ++ b) := rfl

theorem get_indent_eq_replicate (d : Nat) :
    get_indent d = String.mk (List.replicate d '\t') := by
  induction d with
  | zero => rfl
  | succ d ih =>
    show get_indent d ++ "\t" = _
    rw [ih]
    show String.mk _ ++ String.mk ['\t'] = _
    rw [strMk_append, ← List.replicate_succ' d '\t']

theorem escapeChars_append (l m : List Char) :
    escapeChars (l ++ m) = escapeChars l ++ escapeChars m := by
  induction l with
  | nil => rfl
  | cons c rest ih => simp [escapeChars, ih, List.append_assoc]

theorem validate_string_append (s t : String) :
    validate_string (s ++ t) = validate_string s ++ validate_string t := by
  show String.mk (escapeChars (s ++ t).data) = _
  rw [String.data_append, escapeChars_append, ← strMk_append]
  rfl

theorem walkList_append (l m : List Value) (d : Nat) :
    walkList (l ++ m) d = walkList l d ++ walkList m d := by
  induction l with
  | nil => exact (String.empty_append _).symm
  | cons v rest ih =>
    show walk none v d ++ walkList (rest ++ m) d = _
    rw [ih, ← String.append_assoc]
    rfl

theorem walkTable_append (l m : List (String × Value)) (d : Nat) :
    walkTable (l ++ m) d = walkTable l d ++ walkTable m d := by
  induction l with
  | nil => exact (String.empty_append _).symm
  | cons kv rest ih =>
    show walk (some kv.1) kv.2 d ++ walkTable (rest ++ m) d = _
    rw [ih, ← String.append_assoc]
    rfl

theorem renderEntries_append (l m : List (String × Value)) :
    renderEntries (l ++ m) = renderEntries l ++ renderEntries m := by
  induction l with
  | nil => exact (String.empty_append _).symm
  | cons kv rest ih =>
    show walk (some (validate_string kv.1)) kv.2 1 ++ renderEntries (rest ++ m) = _
    rw [ih, ← String.append_assoc]
    rfl

theorem charVal_digitChar : ∀ m : Nat, m < 10 →
    (Nat.digitChar m).toNat - '0'.toNat = m := by decide

theorem digitChar_ne_dash : ∀ m : Nat, m < 10 → Nat.digitChar m ≠ '-' := by decide

theorem digitChar_ne_zero : ∀ m : Nat, m < 10 → m ≠ 0 → Nat.digitChar m ≠ '0' := by
  decide

theorem digitChar_isDigit : ∀ m : Nat, m < 10 → (Nat.digitChar m).isDigit = true := by
  decide

theorem natDigits_digitsVal (n : Nat) : digitsVal (natDigits n) = n := by
  induction n using Nat.strong_induction_on with
  | _ n ih =>
    rw [natDigits]
    by_cases h : n < 10
    · simp only [if_pos h]
      show 10 * 0 + ((Nat.digitChar n).toNat - '0'.toNat) = n
      rw [charVal_digitChar n h]
      omega
    · simp only [if_neg h]
      unfold digitsVal
      rw [List.foldl_append]
      show 10 * digitsVal (natDigits (n / 10)) +
        ((Nat.digitChar (n % 10)).toNat - '0'.toNat) = n
      rw [ih (n / 10) (Nat.div_lt_self (by omega) (by omega)),
        charVal_digitChar (n % 10) (Nat.mod_lt n (by omega))]
      omega

theorem natDigits_head (n : Nat) : ∃ m, m < 10 ∧
    (natDigits n).head? = some (Nat.digitChar m) ∧ (n ≠ 0 → m ≠ 0) := by
  induction n using Nat.strong_induction_on with
  | _ n ih =>
    rw [natDigits]
    by_cases h : n < 10
    · refine ⟨n, h, ?_, fun hn => hn⟩
      rw [if_pos h]
      rfl
    · obtain ⟨m, hm, hhead, hnz⟩ := ih (n / 10) (Nat.div_lt_self (by omega) (by omega))
      refine ⟨m, hm, ?_, fun _ => hnz (by omega)⟩
      simp only [if_neg h]
      cases hd : natDigits (n / 10) with
      | nil => rw [hd] at hhead; simp at hhead
      | cons c rest => rw [hd] at hhead; simpa using hhead

theorem natDigits_all_digits (n : Nat) :
    (natDigits n).all Char.isDigit = true := by
  induction n using Nat.strong_induction_on with
  | _ n ih =>
    rw [natDigits]
    by_cases h : n < 10
    · simp [if_pos h, digitChar_isDigit n h]
    · simp only [if_neg h, List.all_append]
      rw [ih (n / 10) (Nat.div_lt_self (by omega) (by omega))]
      simp [digitChar_isDigit (n % 10) (Nat.mod_lt n (by omega))]

theorem app4 (x y z w : String) : ((x ++ y) ++ z) ++ w = x ++ (y ++ (z ++ w)) := by
  rw [String.append_assoc, String.append_assoc]

theorem all_digit_or_dash (l : List Char) (h : l.all Char.isDigit = true) :
    l.all (fun c => c.isDigit || c == '-') = true := by
  rw [List.all_eq_true] at h ⊢
  intro c hc
  simp [h c hc]

theorem decode_int_int_to_string (i : Int) :
    decode_int (int_to_string i) = i := by
  unfold int_to_string decode_int
  by_cases h : i < 0
  · simp only [if_pos h]
    show (if ('-' :: natDigits i.natAbs).head? = some '-' then _ else _) = i
    simp only [List.head?_cons, if_true]
    show -(digitsVal (natDigits i.natAbs) : Int) = i
    rw [natDigits_digitsVal]
    omega
  · simp only [if_neg h]
    obtain ⟨m, hm, hhead, _⟩ := natDigits_head i.natAbs
    show (if (natDigits i.natAbs).head? = some '-' then _ else _) = i
    rw [if_neg (by rw [hhead]; simpa using digitChar_ne_dash m hm)]
    show (digitsVal (natDigits i.natAbs) : Int) = i
    rw [natDigits_digitsVal]
    omega

theorem escapeChar_of_not_special (c : Char) (h1 : c ≠ '\n') (h2 : c ≠ '\t')
    (h3 : c ≠ '\r') (h4 : c ≠ '\\') (h5 : c ≠ '"') : escapeChar c = [c] := by
  unfold escapeChar
  split <;> simp_all

/-- Claim C3 (amended): for every datetime value, the renderer emits its
pre-existing textual representation verbatim inside double quotes; the
escaping function is not applied to datetime text. -/
theorem datetime_rendered_verbatim_quoted (d : String) (key : Option String)
    (depth : Nat) :
    walk key (.datetime d) depth =
      get_indent depth ++ key_part key ++ ("\"" ++ d ++ "\"") ++ ",\n" := rfl

/-- Claim C3 (counterexample): a datetime whose text contains a double
quote is emitted with the quote raw, not as a two-character escape
sequence, contradicting the claim that datetime text is run through the
same escaping rules as plain strings. -/
theorem datetime_escaping_refuted :
    walk none (.datetime "a\"b") 1 = "\t\"a\"b\",\n" ∧
    walk none (.datetime "a\"b") 1 ≠
      get_indent 1 ++ key_part none ++ ("\"" ++ validate_string "a\"b" ++ "\"") ++ ",\n" :=
  ⟨by decide, by decide⟩

/-- Claim C4: `validate_string` maps newline, tab, carriage return,
backslash and double quote to their two-character escape sequences,
leaves every other character unchanged, distributes over concatenation
(a single character-by-character pass), and `walk` applies the same
substitution to both the key and the string value of an entry. -/
theorem validate_string_escapes_chars :
    validate_string "\n" = "\\n" ∧
    validate_string "\t" = "\\t" ∧
    validate_string "\r" = "\\r" ∧
    validate_string "\\" = "\\\\" ∧
    validate_string "\"" = "\\\"" ∧
    (∀ c : Char, c ≠ '\n' → c ≠ '\t' → c ≠ '\r' → c ≠ '\\' → c ≠ '"' →
      validate_string (String.mk [c]) = String.mk [c]) ∧
    (∀ s t : String, validate_string (s ++ t) = validate_string s ++ validate_string t) ∧
    (∀ (k s : String) (d : Nat), walk (some k) (.str s) d =
      get_indent d ++ ("[\"" ++ validate_string k ++ "\"] = ") ++
        ("\"" ++ validate_string s ++ "\"") ++ ",\n") := by
  refine ⟨by decide, by decide, by decide, by decide, by decide, ?_, validate_string_append, ?_⟩
  · intro c h1 h2 h3 h4 h5
    show String.mk (escapeChars [c]) = String.mk [c]
    simp [escapeChars, escapeChar_of_not_special c h1 h2 h3 h4 h5]
  · intro k s d
    rfl

/-- Witness for claim C4 at a concrete non-ASCII character and a
concrete concatenation. -/
theorem validate_string_escapes_chars_witness :
    validate_string (String.mk ['é']) = String.mk ['é'] ∧
    validate_string ("ab" ++ "\\") = validate_string "ab" ++ validate_string "\\" :=
  ⟨validate_string_escapes_chars.2.2.2.2.2.1 'é' (by decide) (by decide) (by decide)
      (by decide) (by decide),
    validate_string_escapes_chars.2.2.2.2.2.2.1 "ab" "\\"⟩

/-- Claim C1 (code bug): `parse` escapes a top-level key once before
handing it to `walk`, which escapes it again — a root-table key holding
one literal backslash is rendered as four backslash characters, not the
two the single-pass rule produces.  (`validate_string` applied once
yields the two-character form, as the second conjunct shows.) -/
theorem toplevel_key_double_escaped :
    validate_string "a\\b" = "a\\\\b" ∧
    render [("a\\b", .boolean true)] = "\x7b\n\t[\"a\\\\\\\\b\"] = true,\n\x7d" ∧
    render [("a\\b", .boolean true)] ≠ "\x7b\n\t[\"a\\\\b\"] = true,\n\x7d" :=
  ⟨by decide, by decide, by decide⟩

/-- Claim C2: nested tables and the root table emit their entries in
insertion order — a table holding keys in order a, b, c renders the
entries for a, b and c in exactly that order — and a concrete root whose
keys are inserted in reverse lexical order is emitted in insertion
order, not lexical order. -/
theorem table_entries_emitted_in_insertion_order :
    (∀ (a b c : String) (va vb vc : Value) (d : Nat),
      walkTable [(a, va), (b, vb), (c, vc)] d =
        walk (some a) va d ++ walk (some b) vb d ++ walk (some c) vc d) ∧
    (∀ (a b c : String) (va vb vc : Value),
      renderEntries [(a, va), (b, vb), (c, vc)] =
        walk (some (validate_string a)) va 1 ++ walk (some (validate_string b)) vb 1 ++
          walk (some (validate_string c)) vc 1) ∧
    render [("b", .boolean true), ("a", .boolean false)] =
      "\x7b\n\t[\"b\"] = true,\n\t[\"a\"] = false,\n\x7d" := by
  refine ⟨?_, ?_, by decide⟩
  · intro a b c va vb vc d
    show walk (some a) va d ++ (walk (some b) vb d ++ (walk (some c) vc d ++ "")) = _
    rw [String.append_empty, ← String.append_assoc]
  · intro a b c va vb vc
    show walk (some (validate_string a)) va 1 ++ (walk (some (validate_string b)) vb 1 ++
      (walk (some (validate_string c)) vc 1 ++ "")) = _
    rw [String.append_empty, ← String.append_assoc]

/-- Claim C5: every rendered entry — scalar or container, in any table
or array, last entry included — ends with a comma followed by a newline
emitted immediately after the entry's literal or closing brace. -/
theorem every_entry_trailing_comma :
    (∀ (key : Option String) (v : Value) (d : Nat), ∃ p, walk key v d = p ++ ",\n") ∧
    (∀ (l : List Value) (v : Value) (d : Nat), ∃ p, walkList (l ++ [v]) d = p ++ ",\n") ∧
    (∀ (t : List (String × Value)) (k : String) (v : Value) (d : Nat),
      ∃ p, walkTable (t ++ [(k, v)]) d = p ++ ",\n") ∧
    (∀ (root : List (String × Value)) (k : String) (v : Value),
      ∃ p, renderEntries (root ++ [(k, v)]) = p ++ ",\n") := by
  have hw : ∀ (key : Option String) (v : Value) (d : Nat), ∃ p, walk key v d = p ++ ",\n" := by
    intro key v d
    cases v <;> exact ⟨_, rfl⟩
  refine ⟨hw, ?_, ?_, ?_⟩
  · intro l v d
    obtain ⟨p, hp⟩ := hw none v d
    refine ⟨walkList l d ++ p, ?_⟩
    rw [walkList_append]
    show walkList l d ++ (walk none v d ++ "") = _
    rw [String.append_empty, hp, ← String.append_assoc]
  · intro t k v d
    obtain ⟨p, hp⟩ := hw (some k) v d
    refine ⟨walkTable t d ++ p, ?_⟩
    rw [walkTable_append]
    show walkTable t d ++ (walk (some k) v d ++ "") = _
    rw [String.append_empty, hp, ← String.append_assoc]
  · intro root k v
    obtain ⟨p, hp⟩ := hw (some (validate_string k)) v 1
    refine ⟨renderEntries root ++ p, ?_⟩
    rw [renderEntries_append]
    show renderEntries root ++ (walk (some (validate_string k)) v 1 ++ "") = _
    rw [String.append_empty, hp, ← String.append_assoc]

/-- Claim C6: indentation is exactly `depth` tab characters (root
entries render at depth 1), every entry is prefixed by its depth's
indentation, and an array or nested table emits an opening brace and
newline, its elements or pairs at depth + 1 (array elements with no
key), then `depth` tabs and the closing brace. -/
theorem indentation_tabs_per_depth :
    (∀ d : Nat, get_indent d = String.mk (List.replicate d '\t')) ∧
    (∀ (key : Option String) (v : Value) (d : Nat),
      ∃ rest, walk key v d = get_indent d ++ rest) ∧
    (∀ (k : String) (v : Value) (root : List (String × Value)),
      renderEntries ((k, v) :: root) = walk (some (validate_string k)) v 1 ++ renderEntries root) ∧
    (∀ (a : List Value) (key : Option String) (d : Nat),
      walk key (.array a) d = get_indent d ++ key_part key ++
        ("\x7b\n" ++ walkList a (d + 1) ++ get_indent d ++ "\x7d") ++ ",\n") ∧
    (∀ (t : List (String × Value)) (key : Option String) (d : Nat),
      walk key (.table t) d = get_indent d ++ key_part key ++
        ("\x7b\n" ++ walkTable t (d + 1) ++ get_indent d ++ "\x7d") ++ ",\n") ∧
    (∀ (v : Value) (rest : List Value) (d : Nat),
      walkList (v :: rest) d = walk none v d ++ walkList rest d) ∧
    (∀ (k : String) (v : Value) (rest : List (String × Value)) (d : Nat),
      walkTable ((k, v) :: rest) d = walk (some k) v d ++ walkTable rest d) := by
  refine ⟨get_indent_eq_replicate, ?_, fun k v root => rfl, fun a key d => rfl,
    fun t key d => rfl, fun v rest d => rfl, fun k v rest d => rfl⟩
  intro key v d
  cases v <;> exact ⟨_, app4 _ _ _ _⟩

/-- Claim C10: an empty array renders as an opening brace and newline
followed directly by the matching-depth tabs and the closing brace —
no entries and no comma inside the braces. -/
theorem empty_array_renders_braces_only (key : Option String) (d : Nat) :
    walk key (.array []) d =
      get_indent d ++ key_part key ++ ("\x7b\n" ++ get_indent d ++ "\x7d") ++ ",\n" := by
  show get_indent d ++ key_part key ++
    ("\x7b\n" ++ walkList [] (d + 1) ++ get_indent d ++ "\x7d") ++ ",\n" = _
  show get_indent d ++ key_part key ++
    (("\x7b\n" ++ "") ++ get_indent d ++ "\x7d") ++ ",\n" = _
  rw [String.append_empty]

/-- Claim C7: whenever the upstream parser succeeds, `parse` returns the
rendered root, whose text opens with an opening brace immediately
followed by a newline and closes with a closing brace carrying no
trailing newline. -/
theorem parse_output_brace_delimited (E : Type)
    (from_str : String → Except E (List (String × Value))) (s : String)
    (t : List (String × Value)) (h : from_str s = Except.ok t) :
    parse from_str s = Except.ok (render t) ∧
    (render t).data.head? = some '\x7b' ∧
    ((render t).data.drop 1).head? = some '\n' ∧
    (render t).data.getLast? = some '\x7d' ∧
    (render t).data.getLast? ≠ some '\n' := by
  have hdata : (render t).data = '\x7b' :: '\n' :: ((renderEntries t).data ++ ['\x7d']) := by
    show (("\x7b\n" ++ renderEntries t) ++ "\x7d").data = _
    rw [String.data_append, String.data_append]
    rfl
  have hlast : (render t).data.getLast? = some '\x7d' := by
    rw [hdata]
    exact List.getLast?_concat ('\x7b' :: '\n' :: (renderEntries t).data)
  refine ⟨?_, ?_, ?_, hlast, ?_⟩
  · show (match from_str s with
      | .error e => Except.error e
      | .ok t => Except.ok (render t)) = Except.ok (render t)
    rw [h]
  · rw [hdata]
    rfl
  · rw [hdata]
    rfl
  · rw [hlast]
    decide

/-- Witness for claim C7 at the empty root table. -/
theorem parse_output_brace_delimited_witness :
    parse (fun _ => (Except.ok [] : Except String (List (String × Value)))) "" =
      Except.ok (render []) ∧
    (render ([] : List (String × Value))).data.head? = some '\x7b' ∧
    ((render ([] : List (String × Value))).data.drop 1).head? = some '\n' ∧
    (render ([] : List (String × Value))).data.getLast? = some '\x7d' ∧
    (render ([] : List (String × Value))).data.getLast? ≠ some '\n' :=
  parse_output_brace_delimited String (fun _ => Except.ok []) "" [] rfl

/-- Claim C8: `parse` is exactly the upstream parser's result with the
renderer mapped over the success case — it fails precisely when the
parser fails, returns the parser's error unchanged, and on success the
rendering phase is a total function introducing no error of its own. -/
theorem parse_propagates_parser_errors (E : Type)
    (from_str : String → Except E (List (String × Value))) (s : String) :
    parse from_str s = Except.map render (from_str s) := by
  cases hfs : from_str s <;> simp [parse, hfs, Except.map]

/-- Claim C9: over the full signed 64-bit range, minimum and maximum
included, the renderer emits an integer's exact decimal representation —
the emitted text decodes back to the same integer (no precision loss),
starts with a minus sign exactly when the value is negative, has no
leading zero, and consists only of decimal digits and the sign. -/
theorem integer_rendered_exact_decimal (i : Int) (d : Nat) (key : Option String)
    (h1 : -(2 ^ 63) ≤ i) (h2 : i < 2 ^ 63) :
    walk key (.integer i) d = get_indent d ++ key_part key ++ int_to_string i ++ ",\n" ∧
    decode_int (int_to_string i) = i ∧
    ((int_to_string i).data.head? = some '-' ↔ i < 0) ∧
    ((int_to_string i).data.head? ≠ some '0' ∨ int_to_string i = "0") ∧
    (0 ≤ i ∨ (int_to_string i).data.tail.head? ≠ some '0') ∧
    (int_to_string i).data.all (fun c => c.isDigit || c == '-') = true := by
  obtain ⟨m, hm, hhead, hnz⟩ := natDigits_head i.natAbs
  by_cases hneg : i < 0
  · have hits : int_to_string i = String.mk ('-' :: natDigits i.natAbs) := if_pos hneg
    refine ⟨rfl, decode_int_int_to_string i, ?_, ?_, ?_, ?_⟩
    · rw [hits]
      exact ⟨fun _ => hneg, fun _ => rfl⟩
    · left
      rw [hits]
      show some '-' ≠ some '0'
      decide
    · right
      rw [hits]
      show (natDigits i.natAbs).head? ≠ some '0'
      rw [hhead]
      have hab : i.natAbs ≠ 0 := by omega
      exact fun hc => digitChar_ne_zero m hm (hnz hab) (Option.some.inj hc)
    · rw [hits]
      show (('-' :: natDigits i.natAbs).all _) = true
      simp [List.all_cons, all_digit_or_dash _ (natDigits_all_digits i.natAbs)]
  · have hits : int_to_string i = String.mk (natDigits i.natAbs) := if_neg hneg
    refine ⟨rfl, decode_int_int_to_string i, ?_, ?_, Or.inl (by omega), ?_⟩
    · rw [hits]
      show (natDigits i.natAbs).head? = some '-' ↔ i < 0
      constructor
      · intro hc
        rw [hhead] at hc
        exact absurd (Option.some.inj hc) (digitChar_ne_dash m hm)
      · intro hc
        exact absurd hc hneg
    · by_cases hz : i = 0
      · right
        rw [hits, hz]
        show String.mk (natDigits 0) = "0"
        rw [natDigits, if_pos (by omega : (0 : Nat) < 10)]
        decide
      · left
        rw [hits]
        show (natDigits i.natAbs).head? ≠ some '0'
        rw [hhead]
        have hab : i.natAbs ≠ 0 := by omega
        exact fun hc => digitChar_ne_zero m hm (hnz hab) (Option.some.inj hc)
    · rw [hits]
      exact all_digit_or_dash _ (natDigits_all_digits i.natAbs)

/-- Witness for claim C9 at the minimum signed 64-bit integer. -/
theorem integer_rendered_exact_decimal_witness :
    (-(2 ^ 63) : Int) ≤ -(2 ^ 63) ∧ (-(2 ^ 63) : Int) < 2 ^ 63 ∧
    (walk none (.integer (-(2 ^ 63))) 1 =
        get_indent 1 ++ key_part none ++ int_to_string (-(2 ^ 63)) ++ ",\n" ∧
      decode_int (int_to_string (-(2 ^ 63))) = -(2 ^ 63) ∧
      ((int_to_string (-(2 ^ 63))).data.head? = some '-' ↔ (-(2 ^ 63) : Int) < 0) ∧
      ((int_to_string (-(2 ^ 63))).data.head? ≠ some '0' ∨
        int_to_string (-(2 ^ 63)) = "0") ∧
      ((0 : Int) ≤ -(2 ^ 63) ∨
        (int_to_string (-(2 ^ 63))).data.tail.head? ≠ some '0') ∧
      (int_to_string (-(2 ^ 63))).data.all (fun c => c.isDigit || c == '-') = true) :=
  ⟨by decide, by decide,
    integer_rendered_exact_decimal (-(2 ^ 63)) 1 none (by decide) (by decide)⟩
